import Mathlib

/-!
Shallow embedding of `conda_rich/hooks.py`: the rich reporter backend for
conda.  Pure string formatting is embedded as Lean functions on `String`
and `List`; the mutable rich `Progress` widget is embedded as explicit
state passing on a task list; the single `raise CondaError` becomes an
`Except` value.  The host `context` object (active prefix, root prefix,
environment directories, quiet flag) is a record parameter, and conda's
`paths_equal` path comparison, which lives outside this repository, is a
function parameter.
-/

namespace CondaRich

/-- The host context fields read by the renderer (`conda.base.context.context`):
the currently active environment path, the root environment path, the
configured environment directories and the quiet flag. -/
structure Context where
  activePrefix : String
  rootPrefix : String
  envsDirs : List String
  quiet : Bool
deriving Repr, DecidableEq

/-- `ROOT_ENV_NAME` from `conda.base.constants`: the reserved name of the
root environment. -/
def ROOT_ENV_NAME : String := "base"

/-- Python `s.rfind(c) + 1`: the index just past the last occurrence of `c`
in `s`, or `0` when `c` does not occur. -/
def rfindEnd (s : String) (c : Char) : Nat :=
  ((s.data.reverse.findIdx? (fun x => x = c)).map
    (fun k => s.data.length - k)).getD 0

/-- POSIX `os.path.basename`: everything after the last slash. -/
def basename (p : String) : String :=
  String.mk (p.data.drop (rfindEnd p '/'))

/-- POSIX `os.path.dirname`: everything before the last slash, with trailing
slashes stripped unless the head is empty or consists only of slashes. -/
def dirname (p : String) : String :=
  let head := p.data.take (rfindEnd p '/')
  if !head.isEmpty && !(head.all (fun x => x = '/')) then
    String.mk ((head.reverse.dropWhile (fun x => x = '/')).reverse)
  else
    String.mk head

/-- Python format spec `>n` on a string: pad on the left with spaces up to
width `n` (no truncation when the string is longer). -/
def rightAlign (s : String) (n : Nat) : String :=
  String.mk (List.replicate (n - s.data.length) ' ') ++ s

/-- Python format spec `n` (default string alignment) : pad on the right
with spaces up to width `n`. -/
def leftAlign (s : String) (n : Nat) : String :=
  s ++ String.mk (List.replicate (n - s.data.length) ' ')

/-- Python `max` over the (non-empty) key lengths of the mapping, as in
`max(map(len, data.keys()))`: fold of `Nat.max` seeded with the first
length. -/
def longestHeader : List (String × String) → Nat
  | [] => 0
  | q :: rest => (rest.map (fun r => r.1.data.length)).foldl Nat.max q.1.data.length

/-- `RichReporterRenderer.detail_view`.  The mapping is embedded as an
association list in mapping order, values already formatted as strings.
Python raises `ValueError` on an empty mapping (`max` of an empty
sequence), embedded as `none`. -/
def detail_view (data : List (String × String)) : Option String :=
  match data with
  | [] => none
  | _ :: _ =>
    let longest_header := longestHeader data
    let table_parts :=
      [""] ++ data.map (fun q => " " ++ rightAlign q.1 longest_header ++ " : " ++ q.2)
        ++ ["\n"]
    some (String.intercalate "\n" table_parts)

/-- The `active` marker computed inside `disp_env`:
`"*" if prefix == context.active_prefix else " "`. -/
def activeMark (ctx : Context) (pfx : String) : String :=
  if pfx = ctx.activePrefix then "*" else " "

/-- The environment display name computed inside `disp_env`: the reserved
root name for the root prefix, the base name for a prefix whose parent
directory `paths_equal`s a configured envs directory, empty otherwise.
`pe` is conda's `paths_equal`, passed as a parameter. -/
def dispName (pe : String → String → Bool) (ctx : Context) (pfx : String) : String :=
  if pfx = ctx.rootPrefix then ROOT_ENV_NAME
  else if ctx.envsDirs.any (fun envsDir => pe envsDir (dirname pfx)) then basename pfx
  else ""

/-- One output row of `envs_list`: the format string in `disp_env`. -/
def disp_env (pe : String → String → Bool) (ctx : Context) (pfx : String) : String :=
  leftAlign (dispName pe ctx pfx) 20 ++ " " ++ activeMark ctx pfx ++ " " ++ pfx

/-- `RichReporterRenderer.envs_list`: header lines, one `disp_env` row per
input prefix, trailing blank, joined with newlines. -/
def envs_list (pe : String → String → Bool) (ctx : Context) (data : List String) : String :=
  String.intercalate "\n"
    (["", "# conda environments:", "#"] ++ data.map (disp_env pe ctx) ++ ["\n"])

/-- One task of a rich `Progress` widget: the state touched by this
adapter (`add_task`, `update(completed=..)`, `update(visible=..)`,
`stop_task`). -/
structure RichTask where
  description : String
  total : Rat
  completed : Rat
  visible : Bool
  stopped : Bool
deriving Repr, DecidableEq

/-- The rich `Progress` widget, embedded as its task list; task ids are
list indices. -/
structure Progress where
  tasks : List RichTask
deriving Repr, DecidableEq

/-- Replace the task at index `i` by `f` of it; out-of-range indices leave
the list unchanged. -/
def updateAt (ts : List RichTask) (i : Nat) (f : RichTask → RichTask) : List RichTask :=
  match ts, i with
  | [], _ => []
  | t :: rest, 0 => f t :: rest
  | t :: rest, Nat.succ j => t :: updateAt rest j f

/-- `Progress.add_task(description, total=..)`: append a fresh task
(completed 0, visible, not stopped) and return its id. -/
def Progress.add_task (p : Progress) (description : String) (total : Rat) :
    Progress × Nat :=
  (⟨p.tasks ++ [⟨description, total, 0, true, false⟩]⟩, p.tasks.length)

/-- `Progress.update(task, completed=.., visible=..)` with each keyword
argument optional, as in the two call sites of `update_to`. -/
def Progress.update (p : Progress) (taskId : Nat) (completed : Option Rat)
    (visible : Option Bool) : Progress :=
  ⟨updateAt p.tasks taskId (fun t =>
    { t with completed := completed.getD t.completed,
             visible := visible.getD t.visible })⟩

/-- `Progress.stop_task(task)`. -/
def Progress.stop_task (p : Progress) (taskId : Nat) : Progress :=
  ⟨updateAt p.tasks taskId (fun t => { t with stopped := true })⟩

/-- An element of the `progress_context_managers` list handed to
`RichProgressBar`: either the rich `Progress` widget or some other
context manager (tagged opaquely). -/
inductive PCM where
  | progress (p : Progress)
  | other (tag : Nat)
deriving Repr, DecidableEq

/-- The `isinstance(progress, Progress)` test of the constructor loop. -/
def PCM.isProgress : PCM → Bool
  | .progress _ => true
  | .other _ => false

/-- `conda.exceptions.CondaError`, carrying its message. -/
structure CondaError where
  message : String
deriving Repr, DecidableEq

/-- The constructor loop of `RichProgressBar.__init__`: scan the supplied
context managers in order and take the first `Progress` instance, if any
(`for .. if isinstance(..): ..; break`). -/
def findProgress : List PCM → Option Progress
  | [] => none
  | .progress p :: _ => some p
  | .other _ :: rest => findProgress rest

/-- `QuietProgressBar`: `ProgressBarBase` state is the description and the
output sink (sinks are embedded as opaque `Nat` handles). -/
structure QuietProgressBar where
  description : String
  io_context_manager : Nat
deriving Repr, DecidableEq

/-- `QuietProgressBar.__init__`: store the base state and write one line to
the sink.  Output written to the sink is returned as a list of write
events. -/
def QuietProgressBar.init (description : String) (io_context_manager : Nat) :
    QuietProgressBar × List String :=
  (⟨description, io_context_manager⟩, ["...downloading " ++ description ++ "...\n"])

/-- `QuietProgressBar.update_to`: `pass`. -/
def QuietProgressBar.update_to (bar : QuietProgressBar) (fraction : Rat) :
    QuietProgressBar × List String :=
  (bar, [])

/-- `QuietProgressBar.refresh`: `pass`. -/
def QuietProgressBar.refresh (bar : QuietProgressBar) : QuietProgressBar × List String :=
  (bar, [])

/-- `QuietProgressBar.close`: `pass`. -/
def QuietProgressBar.close (bar : QuietProgressBar) : QuietProgressBar × List String :=
  (bar, [])

/-- `RichProgressBar`: base state plus the selected `Progress` widget and
the id of the task the constructor added. -/
structure RichProgressBar where
  description : String
  io_context_manager : Nat
  progress : Option Progress
  task : Nat
deriving Repr, DecidableEq

/-- `RichProgressBar.__init__`: select the first `Progress` among the
supplied context managers; raise `CondaError` when there is none;
otherwise add a task with total 1. -/
def RichProgressBar.init (description : String) (io_context_manager : Nat)
    (progress_context_managers : List PCM) : Except CondaError RichProgressBar :=
  match findProgress progress_context_managers with
  | none =>
    Except.error ⟨"Rich is configured, but there is no progress bar available"⟩
  | some p =>
    let r := Progress.add_task p description 1
    Except.ok ⟨description, io_context_manager, some r.1, r.2⟩

/-- `RichProgressBar.update_to`: guarded on `self.progress is not None`;
record the completed fraction, then additionally hide the task when the
fraction equals 1. -/
def RichProgressBar.update_to (bar : RichProgressBar) (fraction : Rat) :
    RichProgressBar :=
  match bar.progress with
  | none => bar
  | some p =>
    let p1 := Progress.update p bar.task (some fraction) none
    let p2 := if fraction = 1 then Progress.update p1 bar.task none (some false) else p1
    { bar with progress := some p2 }

/-- `RichProgressBar.close`: stop the task when the widget is set. -/
def RichProgressBar.close (bar : RichProgressBar) : RichProgressBar :=
  match bar.progress with
  | none => bar
  | some p => { bar with progress := some (Progress.stop_task p bar.task) }

/-- `RichProgressBar.refresh`: `self.progress.refresh()` redraws, touching
no task state. -/
def RichProgressBar.refresh (bar : RichProgressBar) : RichProgressBar :=
  bar

/-- The value returned by `RichReporterRenderer.progress_bar`: one of the
two adapters. -/
inductive ProgressBarResult where
  | quiet (bar : QuietProgressBar)
  | rich (bar : RichProgressBar)
deriving Repr, DecidableEq

/-- `RichReporterRenderer.progress_bar`: dispatch on `context.quiet`; the
description, sink and (through `kwargs`) the context-manager list are
passed to the chosen constructor.  The result pairs the bar with the
output written during construction. -/
def progress_bar (ctx : Context) (description : String) (io_context_manager : Nat)
    (progress_context_managers : List PCM) :
    Except CondaError (ProgressBarResult × List String) :=
  if ctx.quiet then
    let r := QuietProgressBar.init description io_context_manager
    Except.ok (ProgressBarResult.quiet r.1, r.2)
  else
    match RichProgressBar.init description io_context_manager progress_context_managers with
    | Except.error e => Except.error e
    | Except.ok b => Except.ok (ProgressBarResult.rich b, [])

/-! Helper lemmas shared by the claim theorems. -/

theorem le_foldl_max (b : Nat) (l : List Nat) : b ≤ l.foldl Nat.max b := by
  induction l generalizing b with
  | nil => exact Nat.le_refl b
  | cons x xs ih => exact Nat.le_trans (Nat.le_max_left b x) (ih (Nat.max b x))

theorem mem_le_foldl_max (b : Nat) (l : List Nat) (a : Nat) (h : a ∈ l) :
    a ≤ l.foldl Nat.max b := by
  induction l generalizing b with
  | nil => cases h
  | cons x xs ih =>
    cases h with
    | head => exact Nat.le_trans (Nat.le_max_right b a) (le_foldl_max (Nat.max b a) xs)
    | tail _ h2 => exact ih (Nat.max b x) h2

theorem key_le_longestHeader (data : List (String × String)) (q : String × String)
    (h : q ∈ data) : q.1.data.length ≤ longestHeader data := by
  match data with
  | [] => cases h
  | r :: rest =>
    cases h with
    | head =>
      exact le_foldl_max _ _
    | tail _ h2 =>
      exact mem_le_foldl_max _ _ _ (List.mem_map_of_mem (fun s => s.1.data.length) h2)

theorem rightAlign_length (s : String) (n : Nat) (h : s.data.length ≤ n) :
    (rightAlign s n).length = n := by
  have h1 : (rightAlign s n).length = (n - s.data.length) + s.length := by
    simp [rightAlign, String.length_append, String.length_mk]
  have h2 : s.length = s.data.length := rfl
  omega

theorem rightAlign_pad (s : String) (n : Nat) :
    ∃ pad : String, rightAlign s n = pad ++ s ∧ pad.data.all (fun c => c = ' ') = true := by
  refine ⟨String.mk (List.replicate (n - s.data.length) ' '), rfl, ?_⟩
  simp [List.all_eq_true]

theorem updateAt_length (ts : List RichTask) (i : Nat) (f : RichTask → RichTask) :
    (updateAt ts i f).length = ts.length := by
  induction ts generalizing i with
  | nil => rfl
  | cons t rest ih =>
    cases i with
    | zero => rfl
    | succ j => simp [updateAt, ih]

theorem updateAt_getElem? (ts : List RichTask) (i : Nat) (f : RichTask → RichTask)
    (j : Nat) :
    (updateAt ts i f)[j]? = if j = i then (ts[j]?).map f else ts[j]? := by
  induction ts generalizing i j with
  | nil => simp [updateAt]
  | cons t rest ih =>
    cases i with
    | zero =>
      cases j with
      | zero => simp [updateAt]
      | succ m => simp [updateAt]
    | succ k =>
      cases j with
      | zero => simp [updateAt]
      | succ m => simpa [updateAt] using ih k m

theorem findProgress_eq_none_iff (l : List PCM) :
    findProgress l = none ↔ ∀ x ∈ l, PCM.isProgress x = false := by
  induction l with
  | nil => simp [findProgress]
  | cons x rest ih =>
    cases x with
    | progress p => simp [findProgress, PCM.isProgress]
    | other tag => simp [findProgress, PCM.isProgress, ih]

theorem findProgress_first (before : List PCM) (p : Progress) (rest : List PCM)
    (h : ∀ x ∈ before, PCM.isProgress x = false) :
    findProgress (before ++ PCM.progress p :: rest) = some p := by
  induction before with
  | nil => rfl
  | cons x xs ih =>
    cases x with
    | progress q =>
      have := h (PCM.progress q) (List.mem_cons_self _ _)
      simp [PCM.isProgress] at this
    | other tag =>
      simpa [findProgress] using ih (fun y hy => h y (List.mem_cons_of_mem _ hy))

theorem activeMark_count (ctx : Context) (data : List String) :
    ((data.map (activeMark ctx)).count "*") = data.count ctx.activePrefix := by
  induction data with
  | nil => rfl
  | cons x xs ih =>
    by_cases h : x = ctx.activePrefix
    · simp [List.count_cons, activeMark, h, ih, beq_iff_eq]
    · simp [List.count_cons, activeMark, h, ih, beq_iff_eq, Ne.symm h]

theorem activeMark_star_iff (ctx : Context) (pfx : String) :
    activeMark ctx pfx = "*" ↔ pfx = ctx.activePrefix := by
  by_cases h : pfx = ctx.activePrefix <;> simp [activeMark, h]

/-! The claim theorems. -/

/-- Claim C1, counterexample: with active prefix `"/a"` and input list
`["/b"]` (the active prefix occurs zero times), the rendered output of
`envs_list` contains no `'*'` character at all, so the number of rows
marked active is 0, not 1 as the claim requires. -/
theorem envs_list_zero_active_rows :
    (envs_list (fun a b => a == b) ⟨"/a", "/r", [], false⟩ ["/b"]).data.count '*' = 0 ∧
    ¬ ((["/b"].map (activeMark ⟨"/a", "/r", [], false⟩)).count "*" = 1) :=
  ⟨by decide, by decide⟩

/-- Claim C1, amended: a row of `envs_list` is marked `"*"` exactly when its
prefix equals the active prefix (and `" "` otherwise), so the number of
active-marked rows equals the number of occurrences of the active prefix
in the input list — zero, one, or several — and there is one row per
input prefix. -/
theorem envs_list_active_marks (pe : String → String → Bool) (ctx : Context)
    (data : List String) :
    ((data.map (activeMark ctx)).count "*") = data.count ctx.activePrefix ∧
    (∀ pfx, activeMark ctx pfx = "*" ↔ pfx = ctx.activePrefix) ∧
    (∀ pfx, activeMark ctx pfx = "*" ∨ activeMark ctx pfx = " ") ∧
    (data.map (disp_env pe ctx)).length = data.length := by
  refine ⟨activeMark_count ctx data, activeMark_star_iff ctx, ?_, List.length_map data _⟩
  intro pfx
  by_cases h : pfx = ctx.activePrefix
  · exact Or.inl (by simp [activeMark, h])
  · exact Or.inr (by simp [activeMark, h])

/-- Claim C2: for a non-empty details mapping, `detail_view` returns the
string joining one row per entry, in mapping order, where each row is a
space, the key right-aligned to the width of the longest key (the aligned
key has exactly that width, consisting of space padding followed by the
key), then " : " and the value. -/
theorem detail_view_format (data : List (String × String)) (h : data ≠ []) :
    detail_view data =
      some (String.intercalate "\n"
        ([""] ++ data.map (fun q => " " ++ rightAlign q.1 (longestHeader data) ++ " : " ++ q.2)
          ++ ["\n"])) ∧
    ∀ q ∈ data, (rightAlign q.1 (longestHeader data)).length = longestHeader data ∧
      ∃ pad : String, rightAlign q.1 (longestHeader data) = pad ++ q.1 ∧
        pad.data.all (fun c => c = ' ') = true := by
  constructor
  · match data with
    | [] => exact absurd rfl h
    | q :: rest => rfl
  · intro q hq
    exact ⟨rightAlign_length _ _ (key_le_longestHeader data q hq), rightAlign_pad _ _⟩

/-- Claim C2, witness at the mapping `[("a", "1"), ("bbb", "2")]`. -/
theorem detail_view_format_witness :
    detail_view [("a", "1"), ("bbb", "2")] =
      some (String.intercalate "\n"
        ([""] ++ [(("a" : String), ("1" : String)), ("bbb", "2")].map
          (fun q => " " ++ rightAlign q.1 (longestHeader [("a", "1"), ("bbb", "2")]) ++ " : " ++ q.2)
          ++ ["\n"])) ∧
    detail_view [("a", "1"), ("bbb", "2")] = some "\n   a : 1\n bbb : 2\n\n" :=
  ⟨(detail_view_format [("a", "1"), ("bbb", "2")] (by decide)).1, by decide⟩

/-- Claim C3: the display name of a row of `envs_list` is the reserved root
name when the prefix is the root prefix; otherwise the prefix's base name
when some configured envs directory `paths_equal`s the prefix's parent
directory; otherwise empty — and the rendered row is built from exactly
this name. -/
theorem disp_env_name_resolution (pe : String → String → Bool) (ctx : Context)
    (pfx : String) :
    (pfx = ctx.rootPrefix → dispName pe ctx pfx = ROOT_ENV_NAME) ∧
    (pfx ≠ ctx.rootPrefix →
      ctx.envsDirs.any (fun envsDir => pe envsDir (dirname pfx)) = true →
      dispName pe ctx pfx = basename pfx) ∧
    (pfx ≠ ctx.rootPrefix →
      ctx.envsDirs.any (fun envsDir => pe envsDir (dirname pfx)) = false →
      dispName pe ctx pfx = "") ∧
    disp_env pe ctx pfx =
      leftAlign (dispName pe ctx pfx) 20 ++ " " ++ activeMark ctx pfx ++ " " ++ pfx := by
  refine ⟨fun h => by simp [dispName, h], fun h ha => by simp [dispName, h, ha],
    fun h ha => by simp [dispName, h, ha], rfl⟩

/-- Claim C3, witness: the three branches at concrete prefixes, with
`paths_equal` instantiated to string equality. -/
theorem disp_env_name_resolution_witness :
    dispName (fun a b => a == b) ⟨"/e/a", "/root", ["/e"], false⟩ "/root" = ROOT_ENV_NAME ∧
    dispName (fun a b => a == b) ⟨"/e/a", "/root", ["/e"], false⟩ "/e/a" = basename "/e/a" ∧
    dispName (fun a b => a == b) ⟨"/e/a", "/root", ["/e"], false⟩ "/x/y" = "" := by
  refine ⟨(disp_env_name_resolution (fun a b => a == b) ⟨"/e/a", "/root", ["/e"], false⟩
      "/root").1 rfl,
    (disp_env_name_resolution (fun a b => a == b) ⟨"/e/a", "/root", ["/e"], false⟩
      "/e/a").2.1 (by decide) (by decide),
    (disp_env_name_resolution (fun a b => a == b) ⟨"/e/a", "/root", ["/e"], false⟩
      "/x/y").2.2.1 (by decide) (by decide)⟩

/-- Claim C9: `detail_view` fails (Python: `ValueError` from `max` of an
empty sequence, embedded as `none`) exactly on the empty mapping; for
every non-empty mapping it returns a string. -/
theorem detail_view_empty_fails :
    detail_view ([] : List (String × String)) = none ∧
    ∀ data : List (String × String), data ≠ [] → (detail_view data).isSome = true := by
  refine ⟨rfl, ?_⟩
  intro data h
  match data with
  | [] => exact absurd rfl h
  | q :: rest => rfl

/-- Claim C9, witness at the singleton mapping. -/
theorem detail_view_empty_fails_witness :
    detail_view ([] : List (String × String)) = none ∧
    (detail_view [("k", "v")]).isSome = true :=
  ⟨detail_view_empty_fails.1, detail_view_empty_fails.2 [("k", "v")] (by decide)⟩

theorem rich_init_ok_fields (d : String) (io : Nat) (pcms : List PCM)
    (b : RichProgressBar) (h : RichProgressBar.init d io pcms = Except.ok b) :
    b.description = d ∧ b.io_context_manager = io := by
  unfold RichProgressBar.init at h
  cases hf : findProgress pcms with
  | none => rw [hf] at h; cases h
  | some p =>
    rw [hf] at h
    cases h
    exact ⟨rfl, rfl⟩

/-- Claim C4: constructing `RichProgressBar` from a context-manager list
containing no `Progress` instance yields `CondaError` with the fixed
message, and conversely every error of the constructor arises exactly
this way with exactly this message. -/
theorem rich_init_error_characterization (d : String) (io : Nat) (pcms : List PCM) :
    ((∀ x ∈ pcms, PCM.isProgress x = false) →
      RichProgressBar.init d io pcms =
        Except.error ⟨"Rich is configured, but there is no progress bar available"⟩) ∧
    (∀ e, RichProgressBar.init d io pcms = Except.error e →
      (∀ x ∈ pcms, PCM.isProgress x = false) ∧
      e.message = "Rich is configured, but there is no progress bar available") := by
  constructor
  · intro h
    unfold RichProgressBar.init
    rw [(findProgress_eq_none_iff pcms).mpr h]
  · intro e he
    unfold RichProgressBar.init at he
    cases hf : findProgress pcms with
    | none =>
      rw [hf] at he
      cases he
      exact ⟨(findProgress_eq_none_iff pcms).mp hf, rfl⟩
    | some p =>
      rw [hf] at he
      cases he

/-- Claim C4, witness: a list with a single non-`Progress` element. -/
theorem rich_init_error_characterization_witness :
    RichProgressBar.init "pkg" 0 [PCM.other 7] =
      Except.error ⟨"Rich is configured, but there is no progress bar available"⟩ :=
  (rich_init_error_characterization "pkg" 0 [PCM.other 7]).1 (by decide)

/-- Claim C5: `QuietProgressBar` writes exactly one line, the fixed
downloading message, to the sink at construction, and `update_to`,
`refresh` and `close` leave every bar unchanged and write nothing. -/
theorem quiet_progress_bar_effects (d : String) (io : Nat) :
    (QuietProgressBar.init d io).2 = ["...downloading " ++ d ++ "...\n"] ∧
    ((QuietProgressBar.init d io).2).length = 1 ∧
    (QuietProgressBar.init d io).1 = ⟨d, io⟩ ∧
    (∀ bar : QuietProgressBar, ∀ f : Rat, QuietProgressBar.update_to bar f = (bar, [])) ∧
    (∀ bar : QuietProgressBar, QuietProgressBar.refresh bar = (bar, [])) ∧
    (∀ bar : QuietProgressBar, QuietProgressBar.close bar = (bar, [])) :=
  ⟨rfl, rfl, rfl, fun _ _ => rfl, fun _ => rfl, fun _ => rfl⟩

/-- Claim C6: when the progress widget is set and the task id is in range,
`update_to 1` first records the task as completed 1 (visibility still
untouched at that point), and the final state is the second update, which
leaves completed at 1 and marks the task no longer visible. -/
theorem rich_update_to_one (bar : RichProgressBar) (p : Progress)
    (h : bar.progress = some p) (ht : bar.task < p.tasks.length) :
    ∃ t0 t1 t2 : RichTask,
      p.tasks[bar.task]? = some t0 ∧
      (Progress.update p bar.task (some 1) none).tasks[bar.task]? = some t1 ∧
      t1.completed = 1 ∧ t1.visible = t0.visible ∧
      (RichProgressBar.update_to bar 1).progress =
        some (Progress.update (Progress.update p bar.task (some 1) none)
          bar.task none (some false)) ∧
      (Progress.update (Progress.update p bar.task (some 1) none)
          bar.task none (some false)).tasks[bar.task]? = some t2 ∧
      t2.completed = 1 ∧ t2.visible = false := by
  obtain ⟨t0, h0⟩ : ∃ t0, p.tasks[bar.task]? = some t0 := by
    rw [List.getElem?_eq_getElem ht]
    exact ⟨_, rfl⟩
  refine ⟨t0, { t0 with completed := 1 }, { t0 with completed := 1, visible := false },
    h0, ?_, rfl, rfl, ?_, ?_, rfl, rfl⟩
  · simp [Progress.update, updateAt_getElem?, h0, Option.getD]
  · simp [RichProgressBar.update_to, h]
  · simp [Progress.update, updateAt_getElem?, h0, Option.getD]

/-- Claim C6, witness: a one-task widget at fraction 1 ends completed and
invisible. -/
theorem rich_update_to_one_witness :
    (RichProgressBar.update_to ⟨"d", 0, some ⟨[⟨"d", 1, 0, true, false⟩]⟩, 0⟩ 1).progress =
      some ⟨[⟨"d", 1, 1, false, false⟩]⟩ := by
  obtain ⟨t0, t1, t2, h0, h1, hc1, hv1, he, h2, hc2, hv2⟩ :=
    rich_update_to_one ⟨"d", 0, some ⟨[⟨"d", 1, 0, true, false⟩]⟩, 0⟩
      ⟨[⟨"d", 1, 0, true, false⟩]⟩ rfl (by decide)
  rw [he]
  decide

/-- Claim C7: `progress_bar` dispatches on the quiet flag alone — quiet
gives the quiet bar built from the same description and sink (with its
construction output), non-quiet gives the rich bar built from the same
description, sink and context managers, propagating its error if any. -/
theorem progress_bar_dispatch (ctx : Context) (d : String) (io : Nat) (pcms : List PCM) :
    (ctx.quiet = true →
      progress_bar ctx d io pcms =
        Except.ok (ProgressBarResult.quiet ⟨d, io⟩, ["...downloading " ++ d ++ "...\n"])) ∧
    (ctx.quiet = false →
      (∀ b, RichProgressBar.init d io pcms = Except.ok b →
        progress_bar ctx d io pcms = Except.ok (ProgressBarResult.rich b, []) ∧
        b.description = d ∧ b.io_context_manager = io) ∧
      (∀ e, RichProgressBar.init d io pcms = Except.error e →
        progress_bar ctx d io pcms = Except.error e)) := by
  constructor
  · intro hq
    simp [progress_bar, hq, QuietProgressBar.init]
  · intro hq
    constructor
    · intro b hb
      refine ⟨by simp [progress_bar, hq, hb], rich_init_ok_fields d io pcms b hb⟩
    · intro e he
      simp [progress_bar, hq, he]

/-- Claim C7, witness: both sides of the dispatch at concrete inputs. -/
theorem progress_bar_dispatch_witness :
    progress_bar ⟨"", "", [], true⟩ "pkg" 3 [] =
      Except.ok (ProgressBarResult.quiet ⟨"pkg", 3⟩, ["...downloading pkg...\n"]) ∧
    progress_bar ⟨"", "", [], false⟩ "pkg" 3 [PCM.progress ⟨[]⟩] =
      Except.ok (ProgressBarResult.rich ⟨"pkg", 3, some ⟨[⟨"pkg", 1, 0, true, false⟩]⟩, 0⟩,
        []) := by
  constructor
  · exact (progress_bar_dispatch ⟨"", "", [], true⟩ "pkg" 3 []).1 rfl
  · exact (((progress_bar_dispatch ⟨"", "", [], false⟩ "pkg" 3 [PCM.progress ⟨[]⟩]).2 rfl).1
      ⟨"pkg", 3, some ⟨[⟨"pkg", 1, 0, true, false⟩]⟩, 0⟩ rfl).1

/-- Claim C8: when every context manager before some `Progress` element is
not a `Progress`, the constructor binds exactly that first `Progress` (its
task list extended by the new task, whose id it stores), ignoring whatever
follows, including later `Progress` elements. -/
theorem rich_init_first_progress (d : String) (io : Nat) (before : List PCM)
    (p : Progress) (rest : List PCM)
    (h : ∀ x ∈ before, PCM.isProgress x = false) :
    RichProgressBar.init d io (before ++ PCM.progress p :: rest) =
      Except.ok ⟨d, io, some (Progress.add_task p d 1).1, (Progress.add_task p d 1).2⟩ := by
  unfold RichProgressBar.init
  rw [findProgress_first before p rest h]

/-- Claim C8, witness: the second element is selected, the later `Progress`
is ignored. -/
theorem rich_init_first_progress_witness :
    RichProgressBar.init "d" 0
        [PCM.other 0, PCM.progress ⟨[]⟩, PCM.progress ⟨[⟨"x", 1, 0, true, false⟩]⟩] =
      Except.ok ⟨"d", 0, some ⟨[⟨"d", 1, 0, true, false⟩]⟩, 0⟩ :=
  rich_init_first_progress "d" 0 [PCM.other 0] ⟨[]⟩
    [PCM.progress ⟨[⟨"x", 1, 0, true, false⟩]⟩] (by decide)

/-- Claim C10: when the progress widget is set and the fraction is not 1,
`update_to` performs only the completed-amount update: the task keeps its
visibility (and all other fields), every other task is untouched, and the
bar's own fields are unchanged. -/
theorem rich_update_to_ne_one (bar : RichProgressBar) (p : Progress) (fraction : Rat)
    (hf : fraction ≠ 1) (h : bar.progress = some p) :
    (RichProgressBar.update_to bar fraction).progress =
      some (Progress.update p bar.task (some fraction) none) ∧
    (∀ j, j ≠ bar.task →
      (Progress.update p bar.task (some fraction) none).tasks[j]? = p.tasks[j]?) ∧
    (∀ t0, p.tasks[bar.task]? = some t0 →
      (Progress.update p bar.task (some fraction) none).tasks[bar.task]? =
        some { t0 with completed := fraction }) ∧
    (RichProgressBar.update_to bar fraction).description = bar.description ∧
    (RichProgressBar.update_to bar fraction).io_context_manager = bar.io_context_manager ∧
    (RichProgressBar.update_to bar fraction).task = bar.task := by
  refine ⟨by simp [RichProgressBar.update_to, h, hf], ?_, ?_,
    by simp [RichProgressBar.update_to, h, hf], by simp [RichProgressBar.update_to, h, hf],
    by simp [RichProgressBar.update_to, h, hf]⟩
  · intro j hj
    simp [Progress.update, updateAt_getElem?, hj]
  · intro t0 h0
    simp [Progress.update, updateAt_getElem?, h0, Option.getD]

/-- Claim C10, witness: fraction one half updates completed only, the task
stays visible. -/
theorem rich_update_to_ne_one_witness :
    (RichProgressBar.update_to ⟨"d", 0, some ⟨[⟨"d", 1, 0, true, false⟩]⟩, 0⟩
        (1 / 2)).progress =
      some ⟨[⟨"d", 1, 1 / 2, true, false⟩]⟩ := by
  have h := rich_update_to_ne_one ⟨"d", 0, some ⟨[⟨"d", 1, 0, true, false⟩]⟩, 0⟩
    ⟨[⟨"d", 1, 0, true, false⟩]⟩ (1 / 2) (by norm_num) rfl
  rw [h.1]
  simp [Progress.update, updateAt]

end CondaRich
